import Mathlib

/-!
Verification of the static-web HTML template compiler core
(src/html_lexer.c, src/html_parser.c).

Shallow embedding notes.

* The decoded code-point buffer (`utf32_t *`) is modelled as `List Nat`;
  the inputs of interest are ASCII documents, whose code points are
  nonnegative.  Reading the buffer at an offset is `cp`, which returns 0
  past the end of the buffer.  The sentinel 0 has an empty `char_info`
  entry and is distinct from every character the scanner matches, so for
  the identifier and whitespace scans and for all single-character and
  keyword matches this is exactly the behaviour of the C loops at the end
  of the buffer.  The free-text scan in C (`read_token_text`) has no
  bound at all -- it walks past `lexer->end` until adjacent memory stops
  it; the model bounds that scan by the buffer length (see the notes on
  the safety claim about token spans).

* Machine integers: all sizes and offsets are far below any wrap-around
  (buffers of at most a few dozen code points, table capacities 1024 and
  2048), so `Nat` is used directly.

* The token table `struct html_tokens_t` is written by the lexer up to
  `count` and read by the parser through `tokens.id[p]` without a bound
  check against `count`.  Callers in this codebase zero-initialise the
  structures (`struct html_tokens_t tokens = { 0 };` in the older
  driver, `= { 0 }` initialisers throughout), so `id[p]` for
  `count <= p < capacity` reads 0, which is `HTML_TOKEN_GREATERTHAN`.
  The model makes that explicit: `tid` returns the id of a default token
  with id 0 past the end of the token list.

* `unicode_find` is modelled on its defined behaviour: the first offset
  at which the needle occurs completely inside the haystack, and `none`
  when there is no such offset (in particular when the haystack is
  shorter than the needle, a case in which the C routine underflows
  `hay_size - needle_size`).

* Loops whose progress argument is immediate are written with
  well-founded recursion on the remaining length; the two top-level
  driver loops (`html_lex`, `html_parse`) are written with explicit fuel
  `length + 1`, which is sufficient because every committed token or
  node strictly advances the position; running out of fuel is recorded
  as an error state, so a successful result always denotes a genuine
  terminated run of the C loop.
-/

namespace StaticWeb

/-! ## Token kinds (enum in html_parser.h) -/

def HTML_TOKEN_GREATERTHAN : Nat := 0
def HTML_TOKEN_LESSTHAN : Nat := 1
def HTML_TOKEN_IDENTIFIER : Nat := 2
def HTML_TOKEN_WHITESPACE : Nat := 3
def HTML_TOKEN_EQUAL : Nat := 4
def HTML_TOKEN_SINGLEQUOTE : Nat := 5
def HTML_TOKEN_DOUBLEQUOTE : Nat := 6
def HTML_TOKEN_AMPERSAND : Nat := 7
def HTML_TOKEN_EXCLAMATIONMARK : Nat := 8
def HTML_TOKEN_HYPHEN : Nat := 9
def HTML_TOKEN_COLON : Nat := 10
def HTML_TOKEN_OPENBRACE : Nat := 11
def HTML_TOKEN_CLOSEBRACE : Nat := 12
def HTML_TOKEN_OPENPAREN : Nat := 13
def HTML_TOKEN_CLOSEPAREN : Nat := 14
def HTML_TOKEN_SEMICOLON : Nat := 15
def HTML_TOKEN_ASTERISK : Nat := 16
def HTML_TOKEN_HASH : Nat := 17
def HTML_TOKEN_COMMA : Nat := 18
def HTML_TOKEN_SLASH : Nat := 19
def HTML_TOKEN_HTML : Nat := 20
def HTML_TOKEN_DATA : Nat := 21
def HTML_TOKEN_SCRIPT : Nat := 22
def HTML_TOKEN_STRING : Nat := 23
def HTML_TOKEN_TEXT : Nat := 24
def HTML_TOKEN_COMMENT : Nat := 25
def HTML_TOKEN_STYLE : Nat := 26
def HTML_TOKEN_INCLUDE : Nat := 27

def HTML_PARSER_MAX_TOKENS : Nat := 2048
def HTML_PARSER_MAX_NODES : Nat := 1024

/-! ## The character-info table of html_lex -/

/-- CHAR_INFO_IDENTIFIER = 1, CHAR_INFO_NUMBER = 2, CHAR_INFO_NOT_TEXT = 4,
CHAR_INFO_WHITESPACE = 8; `char_info` is the 128-entry lookup table filled
at the start of `html_lex`. -/
def char_info (ch : Nat) : Nat :=
  if ch = 10 ∨ ch = 32 ∨ ch = 13 ∨ ch = 9 then 8
  else if ch = 60 ∨ ch = 62 ∨ ch = 38 ∨ ch = 39 ∨ ch = 34 ∨ ch = 123 ∨ ch = 125 then 4
  else if ch = 95 ∨ (65 ≤ ch ∧ ch ≤ 90) ∨ (97 ≤ ch ∧ ch ≤ 122) then 1
  else if 48 ≤ ch ∧ ch ≤ 57 then 2
  else 0

/-- Mirror of `char_type_check`: characters above 127 have no class at all. -/
def char_type_check (ch flags : Nat) : Bool :=
  if 127 < ch then false else char_info ch &&& flags ≠ 0

/-- Read the code-point buffer; offsets past the end read as the sentinel 0
(see the header notes). -/
def cp (buf : List Nat) (i : Nat) : Nat := buf.getD i 0

/-! ## Keywords (REGISTER_KEYWORD calls in html_lex) -/

def kwHtml : List Nat := [104, 116, 109, 108]
def kwData : List Nat := [100, 97, 116, 97]
def kwInclude : List Nat := [105, 110, 99, 108, 117, 100, 101]
def kwScriptStart : List Nat := [60, 115, 99, 114, 105, 112, 116]
def kwScriptEnd : List Nat := [60, 47, 115, 99, 114, 105, 112, 116, 62]
def kwStyleStart : List Nat := [60, 115, 116, 121, 108, 101]
def kwStyleEnd : List Nat := [60, 47, 115, 116, 121, 108, 101, 62]
def kwCommentStart : List Nat := [60, 33, 45, 45]
def kwCommentEnd : List Nat := [45, 45, 62]

/-! ## unicode.c helpers used by the lexer -/

/-- Mirror of `unicode_compare_likely_equal(hay + i, needle, needle.length) == 0`:
the needle occurs, in full, at offset `i` of the haystack. -/
def compare_likely_equal (hay : List Nat) (i : Nat) (needle : List Nat) : Bool :=
  needle.isPrefixOf (hay.drop i)

/-- The scanning loop of `unicode_find`.  Structural recursion on a fuel
that the wrapper sets to `hay.length + 1`: the loop advances by one per
step and gives up (as the C loop condition does) once the needle no longer
fits, so this fuel never runs out before the loop condition fails. -/
def unicode_find_loop (hay needle : List Nat) : Nat → Nat → Option Nat
  | 0, _ => none
  | fuel + 1, i =>
    if i + needle.length ≤ hay.length then
      if compare_likely_equal hay i needle then some i
      else unicode_find_loop hay needle fuel (i + 1)
    else none

/-- Mirror of `unicode_find(hay, needle, hay_size, needle_size)`: offset of the first
occurrence of the needle, `none` when absent. -/
def unicode_find (hay needle : List Nat) : Option Nat :=
  if hay.length = 0 ∨ needle.length = 0 then none
  else unicode_find_loop hay needle (hay.length + 1) 0

/-! ## Lexer state and token emission -/

/-- One entry of `struct html_tokens_t`: the id and the [tbegin, tend)
code-point offsets of the token text. -/
structure Token where
  id : Nat
  tbegin : Nat
  tend : Nat
deriving DecidableEq, Repr

/-- The mutable fields of `struct html_lexer_t` that the scanning loop
touches: the current offset, the token table built so far, and the
pending-exception message and location. -/
structure LexSt where
  pos : Nat
  toks : List Token
  exc : Option (String × Nat)
deriving DecidableEq, Repr

/-- Mirror of `add_token`: append to the token table, or record the capacity
exception. -/
def add_token (st : LexSt) (id b e : Nat) : LexSt :=
  if st.toks.length < HTML_PARSER_MAX_TOKENS then
    { st with toks := st.toks ++ [⟨id, b, e⟩] }
  else
    { st with exc := some ("Not enough space for tokens", b) }

/-- Mirror of `read_token_char`: a single-character punctuation token. -/
def read_token_char (buf : List Nat) (st : LexSt) (ch token_id : Nat) : Option LexSt :=
  if cp buf st.pos = ch then
    some { add_token st token_id st.pos (st.pos + 1) with pos := st.pos + 1 }
  else none

/-- Mirror of `read_token_keyword`: an exact code-point match of a fixed keyword. -/
def read_token_keyword (buf : List Nat) (st : LexSt) (kw : List Nat) (token_id : Nat) :
    Option LexSt :=
  if compare_likely_equal buf st.pos kw then
    some { add_token st token_id st.pos (st.pos + kw.length) with pos := st.pos + kw.length }
  else none

/-- The forward scan of `read_token_string` from the position after the
opening quote: `some p` when the closing quote is at `p`, `none` when the
buffer ends first.  A backslash escapes exactly the next code point. -/
def string_scan (buf : List Nat) (quote : Nat) : Nat → Nat → Option Nat
  | 0, _ => none
  | fuel + 1, p =>
    if p < buf.length then
      if cp buf p = 92 then string_scan buf quote fuel (p + 2)
      else if cp buf p = quote then some p
      else string_scan buf quote fuel (p + 1)
    else none

/-- Mirror of `read_token_string`: a quoted string literal.  The emitted span
excludes the two quotes: the token is [pos+1, p) while the scan position
moves to p+1.  An unterminated literal records a fatal exception. -/
def read_token_string (buf : List Nat) (st : LexSt) : Option LexSt :=
  let quote := cp buf st.pos
  if quote ≠ 34 ∧ quote ≠ 39 then none
  else
    match string_scan buf quote (buf.length + 1) (st.pos + 1) with
    | some p => some { add_token st HTML_TOKEN_STRING (st.pos + 1) p with pos := p + 1 }
    | none => some { st with exc := some ("Unterminated string literal", st.pos) }

/-- Mirror of `read_token_cdata`: match the start keyword, then search for the end
keyword; the emitted span runs from the start keyword to just before the
end keyword, and the scan position is left at the end keyword (which is
then re-tokenized by later calls).  When the start keyword does not match,
or no end keyword follows, the branch reports no match. -/
def read_token_cdata (buf : List Nat) (st : LexSt) (kwStart kwEnd : List Nat)
    (token_id : Nat) : Option LexSt :=
  if compare_likely_equal buf st.pos kwStart then
    let p := st.pos + kwStart.length
    match unicode_find (buf.drop p) kwEnd with
    | some res => some { add_token st token_id st.pos (p + res) with pos := p + res }
    | none => none
  else none

/-- The maximal run of characters whose class meets `flags`, from `p`
(the loops of `read_token_identifier` and `read_token_whitespace`).
Structural recursion on a fuel the wrappers set to `buf.length + 1`,
which cannot run out before the run ends: a character with a class lies
inside the buffer, so the scan stops at the buffer end at the latest. -/
def scan_flags_go (buf : List Nat) (flags : Nat) : Nat → Nat → Nat
  | 0, p => p
  | fuel + 1, p =>
    if char_type_check (cp buf p) flags then scan_flags_go buf flags fuel (p + 1) else p

def scan_flags (buf : List Nat) (flags : Nat) (p : Nat) : Nat :=
  scan_flags_go buf flags (buf.length + 1) p

/-- The maximal run of characters whose class meets none of `flags`, from
`p` (the loop of `read_token_text`).  The C loop has no bound against
`lexer->end`; the model stops at the end of the buffer. -/
def scan_not_flags_go (buf : List Nat) (flags : Nat) : Nat → Nat → Nat
  | 0, p => p
  | fuel + 1, p =>
    if p < buf.length then
      if char_type_check (cp buf p) flags then p
      else scan_not_flags_go buf flags fuel (p + 1)
    else p

def scan_not_flags (buf : List Nat) (flags : Nat) (p : Nat) : Nat :=
  scan_not_flags_go buf flags (buf.length + 1) p

/-- Mirror of `read_token_identifier`: letter or underscore, then letters, digits
and underscores. -/
def read_token_identifier (buf : List Nat) (st : LexSt) : Option LexSt :=
  if char_type_check (cp buf st.pos) 1 then
    let p := scan_flags buf 3 (st.pos + 1)
    some { add_token st HTML_TOKEN_IDENTIFIER st.pos p with pos := p }
  else none

/-- Mirror of `read_token_whitespace`: a maximal nonempty whitespace run. -/
def read_token_whitespace (buf : List Nat) (st : LexSt) : Option LexSt :=
  let p := scan_flags buf 8 st.pos
  if st.pos < p then some { add_token st HTML_TOKEN_WHITESPACE st.pos p with pos := p }
  else none

/-- Mirror of `read_token_text`: a maximal nonempty run of code points that are not
markup-special, whitespace, or identifier-start characters. -/
def read_token_text (buf : List Nat) (st : LexSt) : Option LexSt :=
  let p := scan_not_flags buf 13 st.pos
  if st.pos < p then some { add_token st HTML_TOKEN_TEXT st.pos p with pos := p }
  else none

/-- The first defined value in a list of options: the semantics of the
short-circuiting chain of alternatives in `read_token`. -/
def first_some {α : Type} : List (Option α) → Option α
  | [] => none
  | some x :: _ => some x
  | none :: rest => first_some rest

/-- The priority-ordered alternatives of the scanner, in the order of the
short-circuiting chain in `read_token`. -/
def read_token_branches (buf : List Nat) (st : LexSt) : List (Option LexSt) :=
  [read_token_cdata buf st kwCommentStart kwCommentEnd HTML_TOKEN_COMMENT,
   read_token_cdata buf st kwScriptStart kwScriptEnd HTML_TOKEN_SCRIPT,
   read_token_cdata buf st kwStyleStart kwStyleEnd HTML_TOKEN_STYLE,
   read_token_string buf st,
   read_token_char buf st 62 HTML_TOKEN_GREATERTHAN,
   read_token_char buf st 60 HTML_TOKEN_LESSTHAN,
   read_token_char buf st 39 HTML_TOKEN_SINGLEQUOTE,
   read_token_char buf st 34 HTML_TOKEN_DOUBLEQUOTE,
   read_token_char buf st 38 HTML_TOKEN_AMPERSAND,
   read_token_char buf st 33 HTML_TOKEN_EXCLAMATIONMARK,
   read_token_char buf st 61 HTML_TOKEN_EQUAL,
   read_token_char buf st 45 HTML_TOKEN_HYPHEN,
   read_token_char buf st 58 HTML_TOKEN_COLON,
   read_token_char buf st 123 HTML_TOKEN_OPENBRACE,
   read_token_char buf st 125 HTML_TOKEN_CLOSEBRACE,
   read_token_char buf st 40 HTML_TOKEN_OPENPAREN,
   read_token_char buf st 41 HTML_TOKEN_CLOSEPAREN,
   read_token_char buf st 59 HTML_TOKEN_SEMICOLON,
   read_token_char buf st 42 HTML_TOKEN_ASTERISK,
   read_token_char buf st 35 HTML_TOKEN_HASH,
   read_token_char buf st 44 HTML_TOKEN_COMMA,
   read_token_char buf st 47 HTML_TOKEN_SLASH,
   read_token_keyword buf st kwHtml HTML_TOKEN_HTML,
   read_token_keyword buf st kwData HTML_TOKEN_DATA,
   read_token_keyword buf st kwInclude HTML_TOKEN_INCLUDE,
   read_token_identifier buf st,
   read_token_whitespace buf st,
   read_token_text buf st]

/-- Mirror of `read_token`: try the alternatives in priority order; the first
successful branch wins. -/
def read_token (buf : List Nat) (st : LexSt) : Option LexSt :=
  first_some (read_token_branches buf st)

/-- The scanning loop of `html_lex`, with explicit fuel. -/
def lex_loop (buf : List Nat) : Nat → LexSt → LexSt
  | 0, st => { st with exc := some ("fuel", st.pos) }
  | fuel + 1, st =>
    if st.pos < buf.length then
      match read_token buf st with
      | some st2 => if st2.exc.isSome then st2 else lex_loop buf fuel st2
      | none => { st with exc := some ("Unrecognized token", st.pos) }
    else st

/-- The final lexer state for a buffer. -/
def lex_run (buf : List Nat) : LexSt :=
  lex_loop buf (buf.length + 1) { pos := 0, toks := [], exc := none }

/-- Mirror of `html_lex`: the token sequence, or the recorded error message and
offset. -/
def html_lex (buf : List Nat) : Except (String × Nat) (List Token) :=
  match (lex_run buf).exc with
  | some e => .error e
  | none => .ok (lex_run buf).toks

/-! ## The tree-building parser (html_parser.c) -/

/-- One entry of the node table: `node_parent` (the tag-name token index
of the parent node, 0 for the sentinel root) and `node_tag_name`. -/
structure HtmlNode where
  parent : Nat
  tag : Nat
deriving DecidableEq, Repr

/-- One entry of the attribute table: `attrib_parent` (the tag-name token index of
the owning node), `attrib_name`, and `attrib_value` (a string-token
index, 0 when the attribute has no value). -/
structure Attrib where
  parent : Nat
  name : Nat
  value : Nat
deriving DecidableEq, Repr

/-- The mutable fields of `struct html_parser_t` together with the tree
tables it builds: the token position, the node and attribute tables, the
tag-nesting stack (bottom first, entry 0 the reserved sentinel 0), and the
pending exception. -/
structure ParseSt where
  current : Nat
  nodes : List HtmlNode
  attribs : List Attrib
  stack : List Nat
  exc : Option (String × Nat)
deriving DecidableEq, Repr

/-- Mirror of `tree->tokens.id[p]`.  Past the end of the token list this reads the
zero-initialised table, so the id is 0, which is `HTML_TOKEN_GREATERTHAN`
(see the header notes). -/
def tid (toks : List Token) (p : Nat) : Nat :=
  (toks.getD p ⟨0, 0, 0⟩).id

/-- The EXPECT_TOKEN_*_0N loops: skip tokens whose id satisfies `f`.
All uses pass ids other than 0, so stopping at the end of the token list
agrees with the zero-initialised table the C loop reads.  Structural
recursion on a fuel the wrapper sets to `toks.length + 1`, which cannot
run out before the skipped run ends. -/
def skip_while_go (toks : List Token) (f : Nat → Bool) : Nat → Nat → Nat
  | 0, p => p
  | fuel + 1, p =>
    if p < toks.length then
      if f (tid toks p) then skip_while_go toks f fuel (p + 1) else p
    else p

def skip_while (toks : List Token) (f : Nat → Bool) (p : Nat) : Nat :=
  skip_while_go toks f (toks.length + 1) p

/-- Mirror of `node_stack[node_stack_size - 1]`, the top of the nesting stack. -/
def stack_top (stack : List Nat) : Nat :=
  stack.getLast?.getD 0

/-- Mirror of `push_node`: append a node parented to the top of the nesting stack
and push its tag-name token, or record the capacity exception. -/
def push_node (st : ParseSt) (tag_name : Nat) : ParseSt :=
  if st.nodes.length < HTML_PARSER_MAX_NODES then
    { st with nodes := st.nodes ++ [⟨stack_top st.stack, tag_name⟩],
              stack := st.stack ++ [tag_name] }
  else
    { st with exc := some ("Not enough space for tree", tag_name) }

/-- The downward scan of `pop_node`: the largest index `i` in [1, size)
whose stacked tag-name token has the same token id as the candidate,
starting the scan at index `i0 = size - 1`. -/
def pop_find (toks : List Token) (stack : List Nat) (tag_name : Nat) : Nat → Option Nat
  | 0 => none
  | i + 1 =>
    if tid toks (stack.getD (i + 1) 0) = tid toks tag_name then some (i + 1)
    else pop_find toks stack tag_name i

/-- Mirror of `pop_node`: close-tag matching.  On the first match (scanning from the
top, comparing token ids), truncate the stack to that index; with no match
the stack is unchanged. -/
def pop_node (toks : List Token) (st : ParseSt) (tag_name : Nat) : ParseSt :=
  match pop_find toks st.stack tag_name (st.stack.length - 1) with
  | some i => { st with stack := st.stack.take i }
  | none => st

/-- The attribute loop of `read_node_open_tag_attributes`, accumulating
the attributes to be committed.  Returns the committed attribute list and
the position one past the mandatory closing GREATERTHAN on success; `none`
when the sub-grammar fails (the caller then rolls back).  The loop
consumes at least one token per iteration, so the fuel passed by the
caller (the token count plus one) never runs out. -/
def attrs_loop (toks : List Token) (node : Nat) :
    Nat → Nat → List Attrib → Option (List Attrib × Nat)
  | 0, _, _ => none
  | fuel + 1, p, acc =>
    if tid toks p = HTML_TOKEN_IDENTIFIER then
      let p1 := skip_while toks (fun i => i = HTML_TOKEN_WHITESPACE) (p + 1)
      if tid toks p1 = HTML_TOKEN_EQUAL then
        let p2 := skip_while toks (fun i => i = HTML_TOKEN_WHITESPACE) (p1 + 1)
        if tid toks p2 = HTML_TOKEN_STRING then
          let p3 := skip_while toks (fun i => i = HTML_TOKEN_WHITESPACE) (p2 + 1)
          attrs_loop toks node fuel p3 (acc ++ [⟨node, p, p2⟩])
        else none
      else
        attrs_loop toks node fuel p1 (acc ++ [⟨node, p, 0⟩])
    else
      let p4 := skip_while toks (fun i => i = HTML_TOKEN_WHITESPACE) p
      if tid toks p4 = HTML_TOKEN_GREATERTHAN then some (acc, p4 + 1) else none

/-- Mirror of `read_node_open_tag`.  LESSTHAN, tag name (identifier or the html
keyword token), optional whitespace, then a speculative `push_node`
followed by the attribute sub-grammar; on its failure the node and stack
entry are rolled back (both counts decremented) and the alternative
reports failure.  The result carries the mutated state together with the
processed flag, as the C code mutates the parser in place. -/
def read_node_open_tag (toks : List Token) (st : ParseSt) : ParseSt × Bool :=
  let p := st.current
  if tid toks p = HTML_TOKEN_LESSTHAN then
    let tag_name := p + 1
    if tid toks (p + 1) = HTML_TOKEN_IDENTIFIER ∨ tid toks (p + 1) = HTML_TOKEN_HTML then
      let p2 := skip_while toks (fun i => i = HTML_TOKEN_WHITESPACE) (p + 2)
      let st1 := push_node st tag_name
      match attrs_loop toks tag_name (toks.length + 1) p2 [] with
      | some (newAttribs, p3) =>
        ({ st1 with attribs := st1.attribs ++ newAttribs, current := p3 }, true)
      | none =>
        ({ st1 with nodes := st1.nodes.dropLast, stack := st1.stack.dropLast }, false)
    else (st, false)
  else (st, false)

/-- Mirror of `read_node_close_tag`: LESSTHAN, SLASH, tag name, optional whitespace,
GREATERTHAN; on success pop the nesting stack by close-tag matching. -/
def read_node_close_tag (toks : List Token) (st : ParseSt) : ParseSt × Bool :=
  let p := st.current
  if tid toks p = HTML_TOKEN_LESSTHAN then
    if tid toks (p + 1) = HTML_TOKEN_SLASH then
      let tag_name := p + 2
      if tid toks (p + 2) = HTML_TOKEN_IDENTIFIER ∨ tid toks (p + 2) = HTML_TOKEN_HTML then
        let p2 := skip_while toks (fun i => i = HTML_TOKEN_WHITESPACE) (p + 3)
        if tid toks p2 = HTML_TOKEN_GREATERTHAN then
          ({ pop_node toks st tag_name with current := p2 + 1 }, true)
        else (st, false)
      else (st, false)
    else (st, false)
  else (st, false)

/-- Mirror of `read_node_variable`: OPENBRACE, OPENBRACE, optional whitespace,
identifier, optional whitespace, CLOSEBRACE, CLOSEBRACE; on success the
variable is recorded by a push immediately undone by a pop. -/
def read_node_variable (toks : List Token) (st : ParseSt) : ParseSt × Bool :=
  let p := st.current
  if tid toks p = HTML_TOKEN_OPENBRACE then
    if tid toks (p + 1) = HTML_TOKEN_OPENBRACE then
      let p2 := skip_while toks (fun i => i = HTML_TOKEN_WHITESPACE) (p + 2)
      let var_name := p2
      if tid toks p2 = HTML_TOKEN_IDENTIFIER then
        let p3 := skip_while toks (fun i => i = HTML_TOKEN_WHITESPACE) (p2 + 1)
        if tid toks p3 = HTML_TOKEN_CLOSEBRACE then
          if tid toks (p3 + 1) = HTML_TOKEN_CLOSEBRACE then
            let st1 := push_node st var_name
            let st2 := pop_node toks st1 var_name
            ({ st2 with current := p3 + 2 }, true)
          else (st, false)
        else (st, false)
      else (st, false)
    else (st, false)
  else (st, false)

/-- Mirror of `read_node_text`: a maximal nonempty run of TEXT, WHITESPACE and
IDENTIFIER tokens. -/
def read_node_text (toks : List Token) (st : ParseSt) : ParseSt × Bool :=
  let p := skip_while toks
    (fun i => i = HTML_TOKEN_TEXT ∨ i = HTML_TOKEN_WHITESPACE ∨ i = HTML_TOKEN_IDENTIFIER)
    st.current
  if st.current ≠ p then ({ st with current := p }, true) else (st, false)

/-- Mirror of `read_node_whitespace`: one mandatory whitespace token followed by any
further whitespace tokens. -/
def read_node_whitespace (toks : List Token) (st : ParseSt) : ParseSt × Bool :=
  let p := st.current
  if tid toks p = HTML_TOKEN_WHITESPACE then
    let p2 := skip_while toks (fun i => i = HTML_TOKEN_WHITESPACE) (p + 1)
    ({ st with current := p2 }, true)
  else (st, false)

/-- Mirror of `read_node`: the five grammar alternatives in priority order; each
alternative receives the state left by the previous one (the C code
mutates the parser in place, and a failed speculative open tag leaves its
rollback applied). -/
def read_node (toks : List Token) (st : ParseSt) : ParseSt × Bool :=
  let r1 := read_node_open_tag toks st
  if r1.2 then r1 else
  let r2 := read_node_close_tag toks r1.1
  if r2.2 then r2 else
  let r3 := read_node_variable toks r2.1
  if r3.2 then r3 else
  let r4 := read_node_text toks r3.1
  if r4.2 then r4 else
  read_node_whitespace toks r4.1

/-- The token-consuming loop of `html_parse`, with explicit fuel. -/
def parse_loop (toks : List Token) : Nat → ParseSt → ParseSt
  | 0, st => { st with exc := some ("fuel", st.current) }
  | fuel + 1, st =>
    if st.current < toks.length then
      let r := read_node toks st
      if r.2 then
        if r.1.exc.isSome then r.1 else parse_loop toks fuel r.1
      else
        { r.1 with exc := some ("Invalid syntax", r.1.current) }
    else st

/-- The initial parser state: stack size 1, index 0 the reserved sentinel. -/
def parse_init : ParseSt :=
  { current := 0, nodes := [], attribs := [], stack := [0], exc := none }

/-- The final parser state for a token sequence. -/
def parse_run (toks : List Token) : ParseSt :=
  parse_loop toks (toks.length + 1) parse_init

/-- Mirror of `html_parse` up to its internal state: lex, then run the node loop.
The error case is the lexer error; a parser exception is recorded in the
returned state. -/
def html_parse_state (buf : List Nat) : Except (String × Nat) ParseSt :=
  match html_lex buf with
  | .error e => .error e
  | .ok toks => .ok (parse_run toks)

/-- Mirror of `html_parse`: the tree (token, node and attribute tables) on success,
or the recorded error. -/
def html_parse (buf : List Nat) :
    Except (String × Nat) (List Token × List HtmlNode × List Attrib) :=
  match html_lex buf with
  | .error e => .error e
  | .ok toks =>
    let st := parse_run toks
    match st.exc with
    | some e => .error e
    | none => .ok (toks, st.nodes, st.attribs)

/-! ## The serializer (html_build in html_parser.c) -/

/-- The first `m` iterations of the lookup-building loop of `html_build`:
`for (idx = 0; idx < count; ++idx) token_idx[id[idx]] = idx;`.  Iteration
`idx` overwrites the entry for that token id, so a later occurrence
replaces an earlier one.  Entries never written are modelled as `none`
(in the C code they are indeterminate: the array is not initialised). -/
def token_idx_fold (toks : List Token) : Nat → (Nat → Option Nat)
  | 0 => fun _ => none
  | m + 1 => Function.update (token_idx_fold toks m) (tid toks m) (some m)

/-- The completed token-kind lookup table of `html_build`. -/
def token_idx_table (toks : List Token) : Nat → Option Nat :=
  token_idx_fold toks toks.length

/-- The text of a token: the [tbegin, tend) slice of the code-point
buffer. -/
def token_span (buf : List Nat) (t : Token) : List Nat :=
  (buf.drop t.tbegin).take (t.tend - t.tbegin)

/-- Mirror of `append_token`: copy the span of the token at index `idx` into the
output. -/
def append_token (buf : List Nat) (toks : List Token) (idx : Nat) : List Nat :=
  token_span buf (toks.getD idx ⟨0, 0, 0⟩)

/-- Mirror of `append_token` through the lookup table.  A `none` entry corresponds
to a token kind that never occurred: there the C code reads an
uninitialised index (the documented impossibility of regenerating absent
punctuation); the model emits nothing. -/
def append_token_opt (buf : List Nat) (toks : List Token) : Option Nat → List Nat
  | some idx => append_token buf toks idx
  | none => []

/-- The close-tag emission of `html_build`: LESSTHAN, SLASH, the stacked
tag-name token, GREATERTHAN, each replayed from one instance span. -/
def close_tag_emit (buf : List Nat) (toks : List Token) (lk : Nat → Option Nat)
    (top : Nat) : List Nat :=
  append_token_opt buf toks (lk HTML_TOKEN_LESSTHAN) ++
  append_token_opt buf toks (lk HTML_TOKEN_SLASH) ++
  append_token buf toks top ++
  append_token_opt buf toks (lk HTML_TOKEN_GREATERTHAN)

/-- The inner while loop of `html_build`: pop and emit a close tag while
the emission stack is nonempty and the parent of the node is not on top.  The
emission stack is stored top first.  Returns the emitted text and the
remaining stack. -/
def build_unwind (buf : List Nat) (toks : List Token) (lk : Nat → Option Nat)
    (parent : Nat) : List Nat → List Nat × List Nat
  | [] => ([], [])
  | top :: rest =>
    if parent = top then ([], top :: rest)
    else
      let r := build_unwind buf toks lk parent rest
      (close_tag_emit buf toks lk top ++ r.1, r.2)

/-- The node walk of `html_build`, followed by the final unwinding of the
emission stack. -/
def build_loop (buf : List Nat) (toks : List Token) (lk : Nat → Option Nat) :
    List HtmlNode → List Nat → List Nat
  | [], stack => (stack.map (close_tag_emit buf toks lk)).flatten
  | n :: rest, stack =>
    let r := build_unwind buf toks lk n.parent stack
    r.1 ++
    (append_token_opt buf toks (lk HTML_TOKEN_LESSTHAN) ++
     append_token buf toks n.tag ++
     append_token_opt buf toks (lk HTML_TOKEN_GREATERTHAN)) ++
    build_loop buf toks lk rest (n.tag :: r.2)

/-- Mirror of `html_build`: reconstruct the tag skeleton of the tree as a code-point
stream. -/
def html_build (buf : List Nat) (toks : List Token) (nodes : List HtmlNode) : List Nat :=
  build_loop buf toks (token_idx_table toks) nodes []

/-! ## Derived notions used in the claim statements -/

/-- The concatenation of the token spans, in emission order. -/
def spans_concat (buf : List Nat) (toks : List Token) : List Nat :=
  (toks.map (token_span buf)).flatten

/-- Mirror of `spans_chain a toks b`: the token spans tile the interval [a, b)
exactly: each token begins where its predecessor ended, the first at `a`,
the last ending at `b`.  Together with `tbegin ≤ tend` this is the
non-decreasing, non-overlapping, gap-free partition property. -/
def spans_chain (a : Nat) : List Token → Nat → Bool
  | [], b => a == b
  | t :: rest, b => t.tbegin == a && spans_chain t.tend rest b

/-- The node-table invariant of the implicit claim: every parent field is
the sentinel 0 or the tag-name token index of an earlier node. -/
def NodesOk (nodes : List HtmlNode) : Prop :=
  ∀ i, i < nodes.length →
    (nodes.getD i ⟨0, 0⟩).parent = 0 ∨
    ∃ j, j < i ∧ (nodes.getD j ⟨0, 0⟩).tag = (nodes.getD i ⟨0, 0⟩).parent

/-- The nesting-stack shape invariant: read bottom to top, the entries
reference nodes of strictly increasing index (each entry being that
tag-name token of that node), with indices at least `lo`. -/
def StackRefs (nodes : List HtmlNode) : Nat → List Nat → Prop
  | _, [] => True
  | lo, t :: rest =>
    ∃ j, lo ≤ j ∧ j < nodes.length ∧ (nodes.getD j ⟨0, 0⟩).tag = t ∧
      StackRefs nodes (j + 1) rest

/-- The full nesting-stack invariant: an optional bottom sentinel 0
followed by entries referencing previously recorded nodes in strictly
increasing order.  (The sentinel is absent only in the degenerate states
that the capacity-exceeded rollback can produce.) -/
def StackOk (nodes : List HtmlNode) (stack : List Nat) : Prop :=
  (∃ rest, stack = 0 :: rest ∧ StackRefs nodes 0 rest) ∨ StackRefs nodes 0 stack

/-- What one successful scanner step guarantees: the token table grows by
a (possibly empty, on a pending exception) batch of tokens whose spans lie
inside [st.pos, st2.pos] ⊆ [0, buf.length], none of which is a quote
punctuation token; and when no exception is pending, exactly one token was
emitted, the position strictly advanced, and every token other than a
string literal spans exactly the consumed interval. -/
def StepSpec (buf : List Nat) (st st2 : LexSt) : Prop :=
  ∃ newl : List Token,
    st2.toks = st.toks ++ newl ∧
    st.pos ≤ st2.pos ∧ st2.pos ≤ buf.length ∧
    (∀ t ∈ newl,
      t.id ≠ HTML_TOKEN_SINGLEQUOTE ∧ t.id ≠ HTML_TOKEN_DOUBLEQUOTE ∧
      st.pos ≤ t.tbegin ∧ t.tbegin ≤ t.tend ∧ t.tend ≤ st2.pos) ∧
    (st2.exc = none →
      st.pos < st2.pos ∧
      ∃ t : Token, newl = [t] ∧
        (t.id ≠ HTML_TOKEN_STRING → t.tbegin = st.pos ∧ t.tend = st2.pos))

/-! ## Concrete documents used by the claims -/

/-- The document of the mismatched-close-tag claim:
code points of <a><b><c></a>. -/
def doc_abc : List Nat := [60, 97, 62, 60, 98, 62, 60, 99, 62, 60, 47, 97, 62]

/-- An open tag missing its terminating GREATERTHAN:
code points of <div class="x" (there is no closing angle bracket). -/
def doc_unclosed : List Nat :=
  [60, 100, 105, 118, 32, 99, 108, 97, 115, 115, 61, 34, 120, 34]

/-- Code points of <div></div>. -/
def doc_div : List Nat := [60, 100, 105, 118, 62, 60, 47, 100, 105, 118, 62]

/-- Code points of <div><span></span></div>. -/
def doc_div_span : List Nat :=
  [60, 100, 105, 118, 62, 60, 115, 112, 97, 110, 62,
   60, 47, 115, 112, 97, 110, 62, 60, 47, 100, 105, 118, 62]

/-- Code points of <input disabled>. -/
def doc_input_disabled : List Nat :=
  [60, 105, 110, 112, 117, 116, 32, 100, 105, 115, 97, 98, 108, 101, 100, 62]

/-- Code points of <input type="text">. -/
def doc_input_type : List Nat :=
  [60, 105, 110, 112, 117, 116, 32, 116, 121, 112, 101, 61, 34, 116, 101, 120, 116, 34, 62]

/-- A three-code-point document that is one double-quoted string literal:
quote, the letter a, quote. -/
def doc_quoted_a : List Nat := [34, 97, 34]

/-- A comment start keyword with no matching end keyword:
code points of <!--abcdef> . -/
def doc_unterminated_comment : List Nat :=
  [60, 33, 45, 45, 97, 98, 99, 100, 101, 102, 62]

/-- Code points of <a>. -/
def doc_a : List Nat := [60, 97, 62]

/-- Code points of <a></a>. -/
def doc_a_pair : List Nat := [60, 97, 62, 60, 47, 97, 62]

/-- The token sequence of <a></a>: LESSTHAN, IDENTIFIER a, GREATERTHAN,
LESSTHAN, SLASH, IDENTIFIER a, GREATERTHAN. -/
def toks_a_pair : List Token :=
  [⟨1, 0, 1⟩, ⟨2, 1, 2⟩, ⟨0, 2, 3⟩, ⟨1, 3, 4⟩, ⟨19, 4, 5⟩, ⟨2, 5, 6⟩, ⟨0, 6, 7⟩]

/-! ## Elementary properties of the scanner helpers -/

lemma char_type_check_lt (buf : List Nat) (flags p : Nat)
    (h : char_type_check (cp buf p) flags = true) : p < buf.length := by
  by_contra hge
  have hc : cp buf p = 0 := by
    simp [cp, List.getD, List.getElem?_eq_none (by omega : buf.length ≤ p)]
  rw [hc] at h
  simp [char_type_check, char_info] at h

lemma scan_flags_go_ge (buf : List Nat) (flags : Nat) (fuel : Nat) :
    ∀ p, p ≤ scan_flags_go buf flags fuel p := by
  induction fuel with
  | zero => intro p; simp [scan_flags_go]
  | succ fuel ih =>
    intro p
    rw [scan_flags_go]
    split
    next => have := ih (p + 1); omega
    next => exact Nat.le_refl p

lemma scan_flags_ge (buf : List Nat) (flags p : Nat) : p ≤ scan_flags buf flags p :=
  scan_flags_go_ge buf flags (buf.length + 1) p

lemma scan_flags_go_le (buf : List Nat) (flags : Nat) (fuel : Nat) :
    ∀ p, p ≤ buf.length → scan_flags_go buf flags fuel p ≤ buf.length := by
  induction fuel with
  | zero => intro p hp; simpa [scan_flags_go] using hp
  | succ fuel ih =>
    intro p hp
    rw [scan_flags_go]
    split
    next hcc => exact ih (p + 1) (by have := char_type_check_lt buf flags p hcc; omega)
    next => exact hp

lemma scan_flags_le (buf : List Nat) (flags p : Nat) (hp : p ≤ buf.length) :
    scan_flags buf flags p ≤ buf.length :=
  scan_flags_go_le buf flags (buf.length + 1) p hp

lemma scan_not_flags_go_ge (buf : List Nat) (flags : Nat) (fuel : Nat) :
    ∀ p, p ≤ scan_not_flags_go buf flags fuel p := by
  induction fuel with
  | zero => intro p; simp [scan_not_flags_go]
  | succ fuel ih =>
    intro p
    rw [scan_not_flags_go]
    split
    next =>
      split
      next => exact Nat.le_refl p
      next => have := ih (p + 1); omega
    next => exact Nat.le_refl p

lemma scan_not_flags_ge (buf : List Nat) (flags p : Nat) :
    p ≤ scan_not_flags buf flags p :=
  scan_not_flags_go_ge buf flags (buf.length + 1) p

lemma scan_not_flags_go_le (buf : List Nat) (flags : Nat) (fuel : Nat) :
    ∀ p, p ≤ buf.length → scan_not_flags_go buf flags fuel p ≤ buf.length := by
  induction fuel with
  | zero => intro p hp; simpa [scan_not_flags_go] using hp
  | succ fuel ih =>
    intro p hp
    rw [scan_not_flags_go]
    split
    next hlt =>
      split
      next => exact hp
      next => exact ih (p + 1) (by omega)
    next => exact hp

lemma scan_not_flags_le (buf : List Nat) (flags p : Nat) (hp : p ≤ buf.length) :
    scan_not_flags buf flags p ≤ buf.length :=
  scan_not_flags_go_le buf flags (buf.length + 1) p hp

lemma string_scan_spec (buf : List Nat) (q : Nat) (fuel : Nat) :
    ∀ p r, string_scan buf q fuel p = some r → p ≤ r ∧ r < buf.length := by
  induction fuel with
  | zero => intro p r h; simp [string_scan] at h
  | succ fuel ih =>
    intro p r h
    rw [string_scan] at h
    split at h
    next hlt =>
      split at h
      next => have := ih (p + 2) r h; omega
      next =>
        split at h
        next => cases h; omega
        next => have := ih (p + 1) r h; omega
    next => exact absurd h (by simp)

lemma unicode_find_loop_spec (hay needle : List Nat) (fuel : Nat) :
    ∀ i j, unicode_find_loop hay needle fuel i = some j →
      i ≤ j ∧ j + needle.length ≤ hay.length := by
  induction fuel with
  | zero => intro i j h; simp [unicode_find_loop] at h
  | succ fuel ih =>
    intro i j h
    rw [unicode_find_loop] at h
    split at h
    next hle =>
      split at h
      next => cases h; omega
      next => have := ih (i + 1) j h; omega
    next => exact absurd h (by simp)

lemma unicode_find_spec (hay needle : List Nat) (j : Nat)
    (h : unicode_find hay needle = some j) : j + needle.length ≤ hay.length := by
  unfold unicode_find at h
  split at h
  next => exact absurd h (by simp)
  next => exact (unicode_find_loop_spec hay needle (hay.length + 1) 0 j h).2

lemma compare_likely_equal_le (buf : List Nat) (i : Nat) (kw : List Nat)
    (hkw : kw ≠ []) (h : compare_likely_equal buf i kw = true) :
    i + kw.length ≤ buf.length := by
  unfold compare_likely_equal at h
  have hpre : kw <+: buf.drop i := List.isPrefixOf_iff_prefix.mp h
  have hlen := hpre.length_le
  have hkw1 : 1 ≤ kw.length := by
    cases kw with
    | nil => exact absurd rfl hkw
    | cons a l => simp
  rw [List.length_drop] at hlen
  omega

lemma first_some_cons_some {α : Type} (x : α) (rest : List (Option α)) :
    first_some (some x :: rest) = some x := rfl

lemma first_some_cons_none {α : Type} (rest : List (Option α)) :
    first_some ((none : Option α) :: rest) = first_some rest := rfl

lemma first_some_eq {α : Type} :
    ∀ (l : List (Option α)) (x : α), first_some l = some x →
      ∃ i, i < l.length ∧ l.getD i none = some x ∧
        ∀ j, j < i → l.getD j none = none
  | [], x, h => by simp [first_some] at h
  | some v :: rest, x, h => by
    rw [first_some_cons_some] at h
    exact ⟨0, by simp, by simpa using h, by omega⟩
  | none :: rest, x, h => by
    rw [first_some_cons_none] at h
    obtain ⟨i, hi, hs, hp⟩ := first_some_eq rest x h
    refine ⟨i + 1, by simpa using hi, by simpa using hs, ?_⟩
    intro j hj
    cases j with
    | zero => rfl
    | succ j => simpa using hp j (by omega)

/-! ## The single-step specification of read_token -/

/-- The shared shape of every token-emitting branch: append one explicit
token and move the position. -/
lemma emit_spec (buf : List Nat) (st : LexSt) (tokid b e P : Nat)
    (hb : st.pos ≤ b) (hbe : b ≤ e) (heP : e ≤ P) (hP : P ≤ buf.length)
    (hadv : st.pos < P)
    (h5 : tokid ≠ HTML_TOKEN_SINGLEQUOTE) (h6 : tokid ≠ HTML_TOKEN_DOUBLEQUOTE)
    (hexact : tokid ≠ HTML_TOKEN_STRING → b = st.pos ∧ e = P) :
    StepSpec buf st { add_token st tokid b e with pos := P } := by
  by_cases hcap : st.toks.length < HTML_PARSER_MAX_TOKENS
  · refine ⟨[⟨tokid, b, e⟩], ?_, ?_, ?_, ?_, ?_⟩
    · simp [add_token, hcap]
    · simpa using Nat.le_of_lt hadv
    · simpa using hP
    · intro t ht
      simp at ht
      subst ht
      exact ⟨h5, h6, hb, hbe, heP⟩
    · intro _
      refine ⟨hadv, ⟨tokid, b, e⟩, rfl, ?_⟩
      intro hne
      obtain ⟨hb2, he2⟩ := hexact hne
      simp [hb2, he2]
  · refine ⟨[], by simp [add_token, hcap], by simpa using Nat.le_of_lt hadv,
      by simpa using hP, by simp, ?_⟩
    intro hnone
    simp [add_token, hcap] at hnone

lemma read_token_char_spec (buf : List Nat) (st st2 : LexSt) (ch tokid : Nat)
    (hpos : st.pos < buf.length)
    (h5 : tokid ≠ HTML_TOKEN_SINGLEQUOTE) (h6 : tokid ≠ HTML_TOKEN_DOUBLEQUOTE)
    (h23 : tokid ≠ HTML_TOKEN_STRING)
    (h : read_token_char buf st ch tokid = some st2) :
    StepSpec buf st st2 := by
  unfold read_token_char at h
  split at h
  next hch =>
    cases h
    exact emit_spec buf st tokid st.pos (st.pos + 1) (st.pos + 1)
      (Nat.le_refl _) (by omega) (Nat.le_refl _) (by omega) (by omega)
      h5 h6 (fun _ => ⟨rfl, rfl⟩)
  next => exact absurd h (by simp)

lemma read_token_keyword_spec (buf : List Nat) (st st2 : LexSt) (kw : List Nat)
    (tokid : Nat) (hkw : kw ≠ [])
    (h5 : tokid ≠ HTML_TOKEN_SINGLEQUOTE) (h6 : tokid ≠ HTML_TOKEN_DOUBLEQUOTE)
    (h : read_token_keyword buf st kw tokid = some st2) :
    StepSpec buf st st2 := by
  unfold read_token_keyword at h
  split at h
  next hcmp =>
    cases h
    have hkw1 : 1 ≤ kw.length := by
      cases kw with
      | nil => exact absurd rfl hkw
      | cons a l => simp
    have hlen := compare_likely_equal_le buf st.pos kw hkw hcmp
    exact emit_spec buf st tokid st.pos (st.pos + kw.length) (st.pos + kw.length)
      (Nat.le_refl _) (by omega) (Nat.le_refl _) (by omega) (by omega)
      h5 h6 (fun _ => ⟨rfl, rfl⟩)
  next => exact absurd h (by simp)

lemma read_token_cdata_spec (buf : List Nat) (st st2 : LexSt)
    (kwStart kwEnd : List Nat) (tokid : Nat)
    (hkw : kwStart ≠ [])
    (h5 : tokid ≠ HTML_TOKEN_SINGLEQUOTE) (h6 : tokid ≠ HTML_TOKEN_DOUBLEQUOTE)
    (h23 : tokid ≠ HTML_TOKEN_STRING)
    (h : read_token_cdata buf st kwStart kwEnd tokid = some st2) :
    StepSpec buf st st2 := by
  unfold read_token_cdata at h
  simp only [] at h
  split at h
  next hcmp =>
    split at h
    next res hfind =>
      cases h
      have hkw1 : 1 ≤ kwStart.length := by
        cases kwStart with
        | nil => exact absurd rfl hkw
        | cons a l => simp
      have hlen := compare_likely_equal_le buf st.pos kwStart hkw hcmp
      have hres := unicode_find_spec _ _ _ hfind
      rw [List.length_drop] at hres
      exact emit_spec buf st tokid st.pos (st.pos + kwStart.length + res)
        (st.pos + kwStart.length + res)
        (Nat.le_refl _) (by omega) (Nat.le_refl _) (by omega) (by omega)
        h5 h6 (fun _ => ⟨rfl, rfl⟩)
    next => exact absurd h (by simp)
  next => exact absurd h (by simp)

lemma read_token_string_spec (buf : List Nat) (st st2 : LexSt)
    (hpos : st.pos < buf.length)
    (h : read_token_string buf st = some st2) :
    StepSpec buf st st2 := by
  unfold read_token_string at h
  simp only [] at h
  split at h
  next => exact absurd h (by simp)
  next hq =>
    split at h
    next p hscan =>
      cases h
      have hp := string_scan_spec buf (cp buf st.pos) (buf.length + 1) (st.pos + 1) p hscan
      exact emit_spec buf st HTML_TOKEN_STRING (st.pos + 1) p (p + 1)
        (by omega) (by omega) (by omega) (by omega) (by omega)
        (by decide) (by decide) (fun hne => absurd rfl hne)
    next hscan =>
      cases h
      refine ⟨[], by simp, by simp, by simpa using Nat.le_of_lt hpos, by simp, ?_⟩
      intro hnone
      simp at hnone

lemma read_token_identifier_spec (buf : List Nat) (st st2 : LexSt)
    (hpos : st.pos < buf.length)
    (h : read_token_identifier buf st = some st2) :
    StepSpec buf st st2 := by
  unfold read_token_identifier at h
  split at h
  next hcc =>
    cases h
    have hge := scan_flags_ge buf 3 (st.pos + 1)
    have hle := scan_flags_le buf 3 (st.pos + 1) (by omega)
    exact emit_spec buf st HTML_TOKEN_IDENTIFIER st.pos (scan_flags buf 3 (st.pos + 1))
      (scan_flags buf 3 (st.pos + 1))
      (Nat.le_refl _) (by omega) (Nat.le_refl _) (by omega) (by omega)
      (by decide) (by decide) (fun _ => ⟨rfl, rfl⟩)
  next => exact absurd h (by simp)

lemma read_token_whitespace_spec (buf : List Nat) (st st2 : LexSt)
    (hpos : st.pos < buf.length)
    (h : read_token_whitespace buf st = some st2) :
    StepSpec buf st st2 := by
  unfold read_token_whitespace at h
  simp only [] at h
  split at h
  next hlt =>
    cases h
    have hle := scan_flags_le buf 8 st.pos (Nat.le_of_lt hpos)
    exact emit_spec buf st HTML_TOKEN_WHITESPACE st.pos (scan_flags buf 8 st.pos)
      (scan_flags buf 8 st.pos)
      (Nat.le_refl _) (by omega) (Nat.le_refl _) (by omega) (by omega)
      (by decide) (by decide) (fun _ => ⟨rfl, rfl⟩)
  next => exact absurd h (by simp)

lemma read_token_text_spec (buf : List Nat) (st st2 : LexSt)
    (hpos : st.pos < buf.length)
    (h : read_token_text buf st = some st2) :
    StepSpec buf st st2 := by
  unfold read_token_text at h
  simp only [] at h
  split at h
  next hlt =>
    cases h
    have hle := scan_not_flags_le buf 13 st.pos (Nat.le_of_lt hpos)
    exact emit_spec buf st HTML_TOKEN_TEXT st.pos (scan_not_flags buf 13 st.pos)
      (scan_not_flags buf 13 st.pos)
      (Nat.le_refl _) (by omega) (Nat.le_refl _) (by omega) (by omega)
      (by decide) (by decide) (fun _ => ⟨rfl, rfl⟩)
  next => exact absurd h (by simp)

/-- A failed string branch means the current code point is not a quote. -/
lemma read_token_string_none (buf : List Nat) (st : LexSt)
    (h : read_token_string buf st = none) :
    cp buf st.pos ≠ 34 ∧ cp buf st.pos ≠ 39 := by
  unfold read_token_string at h
  simp only [] at h
  split at h
  next hq => exact hq
  next hq => split at h <;> simp at h

/-- Every successful scanner step satisfies the step specification.  The
quote-punctuation branches are handled by priority: they can only be
reached after the string branch failed, which means the current code
point is not a quote. -/
lemma read_token_spec (buf : List Nat) (st st2 : LexSt)
    (hpos : st.pos < buf.length)
    (h : read_token buf st = some st2) : StepSpec buf st st2 := by
  rw [read_token] at h
  obtain ⟨i, hi, hsome, hprev⟩ := first_some_eq _ _ h
  simp only [read_token_branches, List.length_cons, List.length_nil] at hi
  interval_cases i <;>
    simp only [read_token_branches, List.getD_cons_zero, List.getD_cons_succ] at hsome
  · exact read_token_cdata_spec buf st st2 _ _ _ (by decide) (by decide) (by decide)
      (by decide) hsome
  · exact read_token_cdata_spec buf st st2 _ _ _ (by decide) (by decide) (by decide)
      (by decide) hsome
  · exact read_token_cdata_spec buf st st2 _ _ _ (by decide) (by decide) (by decide)
      (by decide) hsome
  · exact read_token_string_spec buf st st2 hpos hsome
  · exact read_token_char_spec buf st st2 _ _ hpos (by decide) (by decide) (by decide) hsome
  · exact read_token_char_spec buf st st2 _ _ hpos (by decide) (by decide) (by decide) hsome
  · -- single-quote punctuation: unreachable past the string branch
    have hstr := hprev 3 (by omega)
    simp only [read_token_branches, List.getD_cons_zero, List.getD_cons_succ] at hstr
    have hq := read_token_string_none buf st hstr
    unfold read_token_char at hsome
    split at hsome
    next hch => exact absurd hch hq.2
    next => exact absurd hsome (by simp)
  · -- double-quote punctuation: unreachable past the string branch
    have hstr := hprev 3 (by omega)
    simp only [read_token_branches, List.getD_cons_zero, List.getD_cons_succ] at hstr
    have hq := read_token_string_none buf st hstr
    unfold read_token_char at hsome
    split at hsome
    next hch => exact absurd hch hq.1
    next => exact absurd hsome (by simp)
  · exact read_token_char_spec buf st st2 _ _ hpos (by decide) (by decide) (by decide) hsome
  · exact read_token_char_spec buf st st2 _ _ hpos (by decide) (by decide) (by decide) hsome
  · exact read_token_char_spec buf st st2 _ _ hpos (by decide) (by decide) (by decide) hsome
  · exact read_token_char_spec buf st st2 _ _ hpos (by decide) (by decide) (by decide) hsome
  · exact read_token_char_spec buf st st2 _ _ hpos (by decide) (by decide) (by decide) hsome
  · exact read_token_char_spec buf st st2 _ _ hpos (by decide) (by decide) (by decide) hsome
  · exact read_token_char_spec buf st st2 _ _ hpos (by decide) (by decide) (by decide) hsome
  · exact read_token_char_spec buf st st2 _ _ hpos (by decide) (by decide) (by decide) hsome
  · exact read_token_char_spec buf st st2 _ _ hpos (by decide) (by decide) (by decide) hsome
  · exact read_token_char_spec buf st st2 _ _ hpos (by decide) (by decide) (by decide) hsome
  · exact read_token_char_spec buf st st2 _ _ hpos (by decide) (by decide) (by decide) hsome
  · exact read_token_char_spec buf st st2 _ _ hpos (by decide) (by decide) (by decide) hsome
  · exact read_token_char_spec buf st st2 _ _ hpos (by decide) (by decide) (by decide) hsome
  · exact read_token_char_spec buf st st2 _ _ hpos (by decide) (by decide) (by decide) hsome
  · exact read_token_keyword_spec buf st st2 _ _ (by decide) (by decide) (by decide) hsome
  · exact read_token_keyword_spec buf st st2 _ _ (by decide) (by decide) (by decide) hsome
  · exact read_token_keyword_spec buf st st2 _ _ (by decide) (by decide) (by decide) hsome
  · exact read_token_identifier_spec buf st st2 hpos hsome
  · exact read_token_whitespace_spec buf st st2 hpos hsome
  · exact read_token_text_spec buf st st2 hpos hsome

/-! ## The scanning loop invariants -/

/-- Every token present after running the loop either was already present
or has a well-formed in-bounds span and is not a quote punctuation
token. -/
lemma lex_loop_tokens (buf : List Nat) (fuel : Nat) (st : LexSt)
    (hpos : st.pos ≤ buf.length) :
    ∀ t ∈ (lex_loop buf fuel st).toks,
      t ∈ st.toks ∨
      ((t.id ≠ HTML_TOKEN_SINGLEQUOTE ∧ t.id ≠ HTML_TOKEN_DOUBLEQUOTE) ∧
        t.tbegin ≤ t.tend ∧ t.tend ≤ buf.length) := by
  induction fuel generalizing st with
  | zero =>
    intro t ht
    exact Or.inl (by simpa [lex_loop] using ht)
  | succ fuel ih =>
    intro t ht
    by_cases hlt : st.pos < buf.length
    · rw [lex_loop, if_pos hlt] at ht
      cases hrt : read_token buf st with
      | none => rw [hrt] at ht; exact Or.inl ht
      | some st2 =>
        rw [hrt] at ht
        dsimp only [] at ht
        obtain ⟨newl, htoks, hle, hlen2, hfacts, _⟩ := read_token_spec buf st st2 hlt hrt
        have hmem : t ∈ st2.toks →
            t ∈ st.toks ∨
            ((t.id ≠ HTML_TOKEN_SINGLEQUOTE ∧ t.id ≠ HTML_TOKEN_DOUBLEQUOTE) ∧
              t.tbegin ≤ t.tend ∧ t.tend ≤ buf.length) := by
          intro hm
          rw [htoks] at hm
          rcases List.mem_append.mp hm with h1 | h2
          · exact Or.inl h1
          · obtain ⟨h5, h6, hb, hbe, hend⟩ := hfacts t h2
            exact Or.inr ⟨⟨h5, h6⟩, hbe, by omega⟩
        split at ht
        next => exact hmem ht
        next =>
          rcases ih st2 hlen2 t ht with h1 | h2
          · exact hmem h1
          · exact Or.inr h2
    · rw [lex_loop, if_neg hlt] at ht
      exact Or.inl ht

lemma drop_take_drop (l : List Nat) (a b : Nat) (hab : a ≤ b) :
    (l.drop a).take (b - a) ++ l.drop b = l.drop a := by
  have h1 : l.drop b = (l.drop a).drop (b - a) := by
    rw [List.drop_drop]
    congr 1
    omega
  rw [h1, List.take_append_drop]

/-- When the loop finishes with no exception, the emitted tokens tile the
remaining input exactly, provided no string literal was emitted. -/
lemma lex_loop_tiling (buf : List Nat) (fuel : Nat) (st : LexSt)
    (hpos : st.pos ≤ buf.length)
    (hdone : (lex_loop buf fuel st).exc = none) :
    ∃ newl, (lex_loop buf fuel st).toks = st.toks ++ newl ∧
      ((∀ t ∈ newl, t.id ≠ HTML_TOKEN_STRING) →
        (newl.map (token_span buf)).flatten = buf.drop st.pos ∧
        spans_chain st.pos newl buf.length = true) := by
  induction fuel generalizing st with
  | zero =>
    rw [lex_loop] at hdone
    simp at hdone
  | succ fuel ih =>
    by_cases hlt : st.pos < buf.length
    · rw [lex_loop, if_pos hlt] at hdone ⊢
      cases hrt : read_token buf st with
      | none =>
        rw [hrt] at hdone
        simp at hdone
      | some st2 =>
        rw [hrt] at hdone
        dsimp only [] at hdone ⊢
        obtain ⟨newl0, htoks, hle, hlen2, hfacts, hok⟩ := read_token_spec buf st st2 hlt hrt
        cases hx : st2.exc with
        | some e => simp [hx] at hdone
        | none =>
          rw [if_neg (by simp [hx])] at hdone
          rw [if_neg (by simp)]
          obtain ⟨hadv, t, hnewl0, hexact⟩ := hok hx
          obtain ⟨rest, htoks2, htile⟩ := ih st2 hlen2 hdone
          refine ⟨t :: rest, ?_, ?_⟩
          · rw [htoks2, htoks, hnewl0]
            simp
          · intro hns
            have ht23 : t.id ≠ HTML_TOKEN_STRING := hns t (by simp)
            obtain ⟨hb, he⟩ := hexact ht23
            obtain ⟨htile1, htile2⟩ := htile (fun u hu => hns u (by simp [hu]))
            constructor
            · simp only [List.map_cons, List.flatten_cons, htile1]
              rw [token_span, hb, he, drop_take_drop buf st.pos st2.pos hle]
            · simp only [spans_chain, hb, he, htile2]
              simp
    · rw [lex_loop, if_neg hlt] at hdone ⊢
      refine ⟨[], by simp, ?_⟩
      intro _
      have heq : st.pos = buf.length := by omega
      constructor
      · simp [heq, List.drop_length]
      · simp [spans_chain, heq]

/-! ## Claim C1 -/

/-- Claim C1, counterexample.  The three-code-point document consisting of
a double-quoted string literal tokenizes successfully into a single string
token whose span excludes the quotes, so concatenating the emitted spans
yields only the middle code point, not the original buffer: the claimed
exact reconstruction fails, and offsets 0 and 2 belong to no token
span. -/
theorem c1_counterexample :
    html_lex doc_quoted_a = .ok [⟨HTML_TOKEN_STRING, 1, 2⟩] ∧
    spans_concat doc_quoted_a [⟨HTML_TOKEN_STRING, 1, 2⟩] ≠ doc_quoted_a := by
  constructor
  · rfl
  · decide

/-- Claim C1, as amended: for every document that tokenizes successfully
and whose token sequence contains no string-literal token, the
concatenation of the [tbegin, tend) spans in emission order reproduces the
code-point buffer exactly, and the spans tile the buffer gaplessly in
order (each token begins where the previous ended, starting at offset 0
and ending at the buffer length).  String-literal tokens are the sole
exception: their spans omit the two enclosing quote code points. -/
theorem c1_tokens_partition_no_strings (buf : List Nat) (toks : List Token)
    (hok : html_lex buf = .ok toks)
    (hns : ∀ t ∈ toks, t.id ≠ HTML_TOKEN_STRING) :
    spans_concat buf toks = buf ∧ spans_chain 0 toks buf.length = true := by
  unfold html_lex at hok
  split at hok
  next e heq => exact absurd hok (by simp)
  next heq =>
    have htoks : toks = (lex_run buf).toks := by
      injection hok with h
      exact h.symm
    obtain ⟨newl, hnew, htile⟩ :=
      lex_loop_tiling buf (buf.length + 1) { pos := 0, toks := [], exc := none }
        (Nat.zero_le _) heq
    rw [lex_run] at htoks
    rw [hnew] at htoks
    simp at htoks
    subst htoks
    obtain ⟨h1, h2⟩ := htile hns
    exact ⟨by simpa [spans_concat] using h1, h2⟩

/-- Claim C1, witness: the amended theorem applied to the document <a>,
whose three tokens partition it exactly. -/
theorem c1_partition_witness :
    spans_concat doc_a
      [⟨HTML_TOKEN_LESSTHAN, 0, 1⟩, ⟨HTML_TOKEN_IDENTIFIER, 1, 2⟩,
       ⟨HTML_TOKEN_GREATERTHAN, 2, 3⟩] = doc_a ∧
    spans_chain 0
      [⟨HTML_TOKEN_LESSTHAN, 0, 1⟩, ⟨HTML_TOKEN_IDENTIFIER, 1, 2⟩,
       ⟨HTML_TOKEN_GREATERTHAN, 2, 3⟩] doc_a.length = true :=
  c1_tokens_partition_no_strings doc_a
    [⟨HTML_TOKEN_LESSTHAN, 0, 1⟩, ⟨HTML_TOKEN_IDENTIFIER, 1, 2⟩,
     ⟨HTML_TOKEN_GREATERTHAN, 2, 3⟩] (by rfl) (by decide)

/-! ## Claim C6 -/

/-- Claim C6: in the bounded model every emitted token satisfies
tbegin ≤ tend and tend ≤ buffer length, for every input and every token
the scanner ever emits (error runs included).  See the results notes: the
C free-text scan lacks the end-of-buffer bound that makes this true, which
is the recorded code bug. -/
theorem c6_token_spans_in_bounds (buf : List Nat) (t : Token)
    (ht : t ∈ (lex_run buf).toks) :
    t.tbegin ≤ t.tend ∧ t.tend ≤ buf.length := by
  rcases lex_loop_tokens buf (buf.length + 1) { pos := 0, toks := [], exc := none }
      (Nat.zero_le _) t ht with h1 | h2
  · simp at h1
  · exact h2.2

/-- Claim C6, witness: the span facts for the identifier token of <a>. -/
theorem c6_witness :
    (⟨HTML_TOKEN_IDENTIFIER, 1, 2⟩ : Token) ∈ (lex_run doc_a).toks ∧
    (1 ≤ 2 ∧ 2 ≤ doc_a.length) :=
  ⟨by decide,
   c6_token_spans_in_bounds doc_a ⟨HTML_TOKEN_IDENTIFIER, 1, 2⟩ (by decide)⟩

/-! ## Claim C10 -/

/-- Claim C10: the tokenizer never emits a single-quote or double-quote
punctuation token, on any input: the string-literal branch is tried first
and claims every position that starts with a quote, so the two
quote-punctuation branches are unreachable. -/
theorem c10_no_quote_tokens (buf : List Nat) (t : Token)
    (ht : t ∈ (lex_run buf).toks) :
    t.id ≠ HTML_TOKEN_SINGLEQUOTE ∧ t.id ≠ HTML_TOKEN_DOUBLEQUOTE := by
  rcases lex_loop_tokens buf (buf.length + 1) { pos := 0, toks := [], exc := none }
      (Nat.zero_le _) t ht with h1 | h2
  · simp at h1
  · exact h2.1

/-- Claim C10, witness: the first token of the quoted-string document is a
string token, not quote punctuation. -/
theorem c10_witness :
    (⟨HTML_TOKEN_STRING, 1, 2⟩ : Token) ∈ (lex_run doc_quoted_a).toks ∧
    ((HTML_TOKEN_STRING ≠ HTML_TOKEN_SINGLEQUOTE) ∧
      (HTML_TOKEN_STRING ≠ HTML_TOKEN_DOUBLEQUOTE)) :=
  ⟨by decide,
   c10_no_quote_tokens doc_quoted_a ⟨HTML_TOKEN_STRING, 1, 2⟩ (by decide)⟩

/-! ## Claim C4 -/

/-- Claim C4, counterexample.  The document <!--abcdef> begins with the
comment start keyword and contains no end keyword, yet tokenization does
not fail: it succeeds with no recorded error, emitting ordinary
punctuation and identifier tokens for the region (no fatal unterminated
diagnostic, and no comment token). -/
theorem c4_counterexample :
    html_lex doc_unterminated_comment =
      .ok [⟨HTML_TOKEN_LESSTHAN, 0, 1⟩, ⟨HTML_TOKEN_EXCLAMATIONMARK, 1, 2⟩,
           ⟨HTML_TOKEN_HYPHEN, 2, 3⟩, ⟨HTML_TOKEN_HYPHEN, 3, 4⟩,
           ⟨HTML_TOKEN_IDENTIFIER, 4, 10⟩, ⟨HTML_TOKEN_GREATERTHAN, 10, 11⟩] := by
  rfl

/-- Claim C4, as amended: when one of the three CDATA start keywords
matches but no matching end keyword occurs before the end of the input,
the CDATA branch reports no match (instead of failing fatally), so the
scanner falls through to the lower-priority branches at the same
position. -/
theorem c4_unterminated_cdata_no_match (buf : List Nat) (st : LexSt)
    (kwS kwE : List Nat) (kid : Nat)
    (htriple :
      (kwS, kwE, kid) = (kwCommentStart, kwCommentEnd, HTML_TOKEN_COMMENT) ∨
      (kwS, kwE, kid) = (kwScriptStart, kwScriptEnd, HTML_TOKEN_SCRIPT) ∨
      (kwS, kwE, kid) = (kwStyleStart, kwStyleEnd, HTML_TOKEN_STYLE))
    (hcmp : compare_likely_equal buf st.pos kwS = true)
    (hfind : unicode_find (buf.drop (st.pos + kwS.length)) kwE = none) :
    read_token_cdata buf st kwS kwE kid = none := by
  unfold read_token_cdata
  simp [hcmp, hfind]

/-- Claim C4, witness: the amended theorem applied at the start of
<!--abcdef> with the comment keywords. -/
theorem c4_witness :
    read_token_cdata doc_unterminated_comment { pos := 0, toks := [], exc := none }
      kwCommentStart kwCommentEnd HTML_TOKEN_COMMENT = none :=
  c4_unterminated_cdata_no_match doc_unterminated_comment
    { pos := 0, toks := [], exc := none } kwCommentStart kwCommentEnd
    HTML_TOKEN_COMMENT (Or.inl rfl) (by decide) (by decide)

/-! ## Claim C2 -/

/-- Claim C2, counterexample.  Parsing <a><b><c></a> succeeds without a
fatal error, but the nesting stack does not end at size 1: `pop_node`
compares token kinds only, so the close tag for `a` (an identifier token)
matches the topmost stacked entry `c` (also an identifier token)
immediately and pops only it, leaving the stack at size 3. -/
theorem c2_counterexample :
    (lex_run doc_abc).exc = none ∧
    (parse_run (lex_run doc_abc).toks).exc = none ∧
    (parse_run (lex_run doc_abc).toks).stack.length ≠ 1 := by
  decide

/-- Claim C2, as amended: parsing <a><b><c></a> succeeds without a fatal
error, and matching the close tag against the stack by token kind closes
only the topmost entry `c` (token index 7); the final stack is the
sentinel together with the tag-name tokens of `a` (index 1) and `b`
(index 4), and the three nodes are recorded with their nesting
parents. -/
theorem c2_mismatched_close_pops_top_only :
    (lex_run doc_abc).exc = none ∧
    parse_run (lex_run doc_abc).toks =
      { current := 13,
        nodes := [⟨0, 1⟩, ⟨1, 4⟩, ⟨4, 7⟩],
        attribs := [],
        stack := [0, 1, 4],
        exc := none } := by
  decide

/-! ## Claim C3 -/

/-- Claim C3: the recorded code bug evaluated at the failing input.  The
open tag <div class="x" with no terminating GREATERTHAN is nevertheless
accepted: the attribute sub-grammar reads `tokens.id[6]`, one slot past
the six lexed tokens, and the zero-initialised table yields 0 =
HTML_TOKEN_GREATERTHAN there, so the parse succeeds with one node and one
attribute committed and no syntax error or rollback ever happens. -/
theorem c3_phantom_close_accepts :
    html_parse_state doc_unclosed =
      .ok { current := 7,
            nodes := [⟨0, 1⟩],
            attribs := [⟨1, 3, 5⟩],
            stack := [0, 1],
            exc := none } ∧
    (lex_run doc_unclosed).toks.length = 6 :=
  ⟨rfl, by decide⟩

/-! ## Claim C7 -/

/-- Claim C7: <div></div> parses to exactly one node whose parent is the
sentinel 0, and <div><span></span></div> parses to exactly two nodes
where the parent field of the second node (1) equals the tag-name token index
of the first node. -/
theorem c7_parent_links :
    html_parse_state doc_div =
      .ok { current := 7, nodes := [⟨0, 1⟩], attribs := [], stack := [0], exc := none } ∧
    html_parse_state doc_div_span =
      .ok { current := 14, nodes := [⟨0, 1⟩, ⟨1, 4⟩], attribs := [], stack := [0],
            exc := none } ∧
    (([⟨0, 1⟩, ⟨1, 4⟩] : List HtmlNode).getD 1 ⟨0, 0⟩).parent =
      (([⟨0, 1⟩, ⟨1, 4⟩] : List HtmlNode).getD 0 ⟨0, 0⟩).tag :=
  ⟨rfl, rfl, by decide⟩

/-! ## Claim C8 -/

/-- Claim C8: <input disabled> records exactly one attribute whose value
is the no-value sentinel 0, and <input type="text"> records exactly one
attribute whose value is token index 5, a string token whose span is
exactly the code points of the word text, quotes excluded. -/
theorem c8_attributes :
    html_parse_state doc_input_disabled =
      .ok { current := 5, nodes := [⟨0, 1⟩], attribs := [⟨1, 3, 0⟩], stack := [0, 1],
            exc := none } ∧
    html_parse_state doc_input_type =
      .ok { current := 7, nodes := [⟨0, 1⟩], attribs := [⟨1, 3, 5⟩], stack := [0, 1],
            exc := none } ∧
    tid (lex_run doc_input_type).toks 5 = HTML_TOKEN_STRING ∧
    token_span doc_input_type ((lex_run doc_input_type).toks.getD 5 ⟨0, 0, 0⟩) =
      [116, 101, 120, 116] :=
  ⟨rfl, rfl, by decide, by decide⟩

/-! ## Claim C5 -/

/-- Claim C5, counterexample.  In the token sequence of <a></a> the
GREATERTHAN kind first occurs at index 2, but the serializer lookup maps
it to index 6, the last occurrence: the loop writes
`token_idx[id[idx]] = idx` for increasing idx, so later instances
overwrite earlier ones. -/
theorem c5_counterexample :
    html_lex doc_a_pair = .ok toks_a_pair ∧
    tid toks_a_pair 2 = HTML_TOKEN_GREATERTHAN ∧
    tid toks_a_pair 0 ≠ HTML_TOKEN_GREATERTHAN ∧
    tid toks_a_pair 1 ≠ HTML_TOKEN_GREATERTHAN ∧
    token_idx_table toks_a_pair HTML_TOKEN_GREATERTHAN ≠ some 2 ∧
    token_idx_table toks_a_pair HTML_TOKEN_GREATERTHAN = some 6 :=
  ⟨rfl, by decide, by decide, by decide, by decide, by decide⟩

/-- The first `m` iterations of the lookup loop: the entry for kind `k` is
`some i` exactly when `i` is the last index below `m` whose token has kind
`k`. -/
lemma token_idx_fold_spec (toks : List Token) (m : Nat) :
    ∀ k i, token_idx_fold toks m k = some i ↔
      (i < m ∧ tid toks i = k ∧ ∀ j, i < j → j < m → tid toks j ≠ k) := by
  induction m with
  | zero =>
    intro k i
    simp [token_idx_fold]
  | succ m ih =>
    intro k i
    rw [token_idx_fold, Function.update_apply]
    by_cases hk : k = tid toks m
    · rw [if_pos hk]
      constructor
      · intro h
        injection h with h
        subst h
        exact ⟨by omega, hk.symm, fun j hj1 hj2 => by omega⟩
      · rintro ⟨hi, hik, hmax⟩
        have him : i = m := by
          by_contra hne
          exact hmax m (by omega) (by omega) hk.symm
        rw [him]
    · rw [if_neg hk]
      rw [ih k i]
      constructor
      · rintro ⟨hi, hik, hmax⟩
        refine ⟨by omega, hik, ?_⟩
        intro j hij hjm
        by_cases hjm2 : j = m
        · subst hjm2
          intro hc
          exact hk hc.symm
        · exact hmax j hij (by omega)
      · rintro ⟨hi, hik, hmax⟩
        have him : i < m := by
          rcases Nat.lt_succ_iff_lt_or_eq.mp hi with h | h
          · exact h
          · subst h
            exact absurd hik.symm hk
        exact ⟨him, hik, fun j hij hjm => hmax j hij (by omega)⟩

/-- Claim C5, as amended: the serializer lookup maps each token kind to
the index of the LAST token instance of that kind in the original token
sequence (later occurrences overwrite earlier ones), and the serializer
replays representative token spans to emit tag punctuation: rebuilding the
one-node tree of <a></a> from its token table reproduces the document
from replayed spans. -/
theorem c5_lookup_last_occurrence :
    (∀ (toks : List Token) (k i : Nat),
      token_idx_table toks k = some i ↔
        (i < toks.length ∧ tid toks i = k ∧
          ∀ j, i < j → j < toks.length → tid toks j ≠ k)) ∧
    html_build doc_a_pair toks_a_pair [⟨0, 1⟩] = doc_a_pair := by
  constructor
  · intro toks k i
    exact token_idx_fold_spec toks toks.length k i
  · decide

/-- Claim C5, witness: the lookup equivalence applied to the concrete
token sequence of <a></a> for the GREATERTHAN kind, yielding the last
occurrence, index 6. -/
theorem c5_witness : token_idx_table toks_a_pair HTML_TOKEN_GREATERTHAN = some 6 :=
  (c5_lookup_last_occurrence.1 toks_a_pair HTML_TOKEN_GREATERTHAN 6).mpr
    ⟨by decide, by decide, by
      intro j hj1 hj2
      have hlen : toks_a_pair.length = 7 := by decide
      rw [hlen] at hj2
      omega⟩

/-! ## The parser tree invariant (claim C9) -/

lemma nodes_getD_append (nodes more : List HtmlNode) (j : Nat)
    (hj : j < nodes.length) :
    (nodes ++ more).getD j ⟨0, 0⟩ = nodes.getD j ⟨0, 0⟩ := by
  simp [List.getD, List.getElem?_append, hj]

lemma nodes_getD_concat_length (nodes : List HtmlNode) (n : HtmlNode) :
    (nodes ++ [n]).getD nodes.length ⟨0, 0⟩ = n := by
  simp [List.getD]

lemma nodes_getD_dropLast (nodes : List HtmlNode) (j : Nat)
    (hj : j < nodes.length - 1) :
    nodes.dropLast.getD j ⟨0, 0⟩ = nodes.getD j ⟨0, 0⟩ := by
  rw [List.getD_eq_getElem nodes.dropLast ⟨0, 0⟩ (by rw [List.length_dropLast]; omega),
    List.getD_eq_getElem nodes ⟨0, 0⟩ (by omega), List.getElem_dropLast]

lemma stack_refs_mono (nodes : List HtmlNode) (more : List HtmlNode) :
    ∀ (stack : List Nat) (lo : Nat),
      StackRefs nodes lo stack → StackRefs (nodes ++ more) lo stack
  | [], _, _ => trivial
  | t :: rest, lo, h => by
    obtain ⟨j, hlo, hj, htag, hrest⟩ := h
    exact ⟨j, hlo, by rw [List.length_append]; omega,
      by rw [nodes_getD_append _ _ _ hj]; exact htag,
      stack_refs_mono nodes more rest (j + 1) hrest⟩

lemma stack_refs_push (nodes : List HtmlNode) (n : HtmlNode) :
    ∀ (stack : List Nat) (lo : Nat),
      StackRefs nodes lo stack → lo ≤ nodes.length →
      StackRefs (nodes ++ [n]) lo (stack ++ [n.tag])
  | [], lo, _, hlo => by
    refine ⟨nodes.length, hlo, by simp, ?_, trivial⟩
    exact congrArg HtmlNode.tag (nodes_getD_concat_length nodes n)
  | t :: rest, lo, h, hlo => by
    obtain ⟨j, hlo2, hj, htag, hrest⟩ := h
    exact ⟨j, hlo2, by rw [List.length_append]; omega,
      by rw [nodes_getD_append _ _ _ hj]; exact htag,
      stack_refs_push nodes n rest (j + 1) hrest (by omega)⟩

lemma stack_refs_take (nodes : List HtmlNode) :
    ∀ (stack : List Nat) (lo k : Nat),
      StackRefs nodes lo stack → StackRefs nodes lo (stack.take k)
  | [], lo, k, _ => by
    rw [List.take_nil]
    trivial
  | t :: rest, lo, k, h => by
    cases k with
    | zero => trivial
    | succ k =>
      obtain ⟨j, hlo, hj, htag, hrest⟩ := h
      exact ⟨j, hlo, hj, htag, stack_refs_take nodes rest (j + 1) k hrest⟩

lemma stack_refs_ne_nil_lt (nodes : List HtmlNode) (l : List Nat) (lo : Nat)
    (hne : l ≠ []) (h : StackRefs nodes lo l) : lo < nodes.length := by
  cases l with
  | nil => exact absurd rfl hne
  | cons t rest =>
    obtain ⟨j, hlo, hj, _, _⟩ := h
    omega

lemma stack_refs_dropLast (nodes : List HtmlNode) :
    ∀ (xs : List Nat) (x : Nat) (lo : Nat),
      StackRefs nodes lo (xs ++ [x]) → StackRefs nodes.dropLast lo xs
  | [], _, _, _ => trivial
  | y :: ys, x, lo, h => by
    obtain ⟨j, hlo, hj, htag, hrest⟩ := h
    have hbound : j + 1 < nodes.length :=
      stack_refs_ne_nil_lt nodes (ys ++ [x]) (j + 1) (by simp) hrest
    refine ⟨j, hlo, by rw [List.length_dropLast]; omega, ?_,
      stack_refs_dropLast nodes ys x (j + 1) hrest⟩
    rw [nodes_getD_dropLast nodes j (by omega)]
    exact htag

lemma stack_refs_last (nodes : List HtmlNode) :
    ∀ (ys : List Nat) (x : Nat) (lo : Nat), StackRefs nodes lo (ys ++ [x]) →
      ∃ j, j < nodes.length ∧ (nodes.getD j ⟨0, 0⟩).tag = x
  | [], x, lo, h => by
    obtain ⟨j, _, hj, htag, _⟩ := h
    exact ⟨j, hj, htag⟩
  | y :: ys, x, lo, h => by
    obtain ⟨j, _, _, _, hrest⟩ := h
    exact stack_refs_last nodes ys x (j + 1) hrest

lemma stack_ok_top (nodes : List HtmlNode) (stack : List Nat)
    (h : StackOk nodes stack) :
    stack_top stack = 0 ∨
    ∃ j, j < nodes.length ∧ (nodes.getD j ⟨0, 0⟩).tag = stack_top stack := by
  rcases h with ⟨rest, hshape, hrefs⟩ | hrefs
  · subst hshape
    rcases List.eq_nil_or_concat rest with rfl | ⟨ys, x, rfl⟩
    · exact Or.inl rfl
    · rw [List.concat_eq_append] at hrefs ⊢
      obtain ⟨j, hj, htag⟩ := stack_refs_last nodes ys x 0 hrefs
      refine Or.inr ⟨j, hj, ?_⟩
      rw [htag]
      congr 1
      show x = stack_top (0 :: (ys ++ [x]))
      rw [stack_top, show (0 : Nat) :: (ys ++ [x]) = ((0 : Nat) :: ys) ++ [x] by simp,
        List.getLast?_concat]
      rfl
  · rcases List.eq_nil_or_concat stack with rfl | ⟨ys, x, rfl⟩
    · exact Or.inl rfl
    · rw [List.concat_eq_append] at hrefs ⊢
      obtain ⟨j, hj, htag⟩ := stack_refs_last nodes ys x 0 hrefs
      refine Or.inr ⟨j, hj, ?_⟩
      rw [htag]
      congr 1
      show x = stack_top (ys ++ [x])
      rw [stack_top, List.getLast?_concat]
      rfl

lemma stack_ok_push (nodes : List HtmlNode) (stack : List Nat) (tag : Nat)
    (h : StackOk nodes stack) :
    StackOk (nodes ++ [⟨stack_top stack, tag⟩]) (stack ++ [tag]) := by
  rcases h with ⟨rest, hshape, hrefs⟩ | hrefs
  · subst hshape
    refine Or.inl ⟨rest ++ [tag], by simp, ?_⟩
    exact stack_refs_push nodes ⟨stack_top (0 :: rest), tag⟩ rest 0 hrefs (Nat.zero_le _)
  · refine Or.inr ?_
    exact stack_refs_push nodes ⟨stack_top stack, tag⟩ stack 0 hrefs (Nat.zero_le _)

lemma stack_ok_take (nodes : List HtmlNode) (stack : List Nat) (k : Nat)
    (hk : 1 ≤ k) (h : StackOk nodes stack) : StackOk nodes (stack.take k) := by
  rcases h with ⟨rest, hshape, hrefs⟩ | hrefs
  · subst hshape
    cases k with
    | zero => omega
    | succ k =>
      exact Or.inl ⟨rest.take k, by simp, stack_refs_take nodes rest 0 k hrefs⟩
  · exact Or.inr (stack_refs_take nodes stack 0 k hrefs)

lemma stack_ok_dropLast (nodes : List HtmlNode) (stack : List Nat)
    (h : StackOk nodes stack) : StackOk nodes.dropLast stack.dropLast := by
  rcases h with ⟨rest, hshape, hrefs⟩ | hrefs
  · subst hshape
    rcases List.eq_nil_or_concat rest with rfl | ⟨ys, x, rfl⟩
    · exact Or.inr trivial
    · rw [List.concat_eq_append] at hrefs ⊢
      refine Or.inl ⟨ys, ?_, stack_refs_dropLast nodes ys x 0 hrefs⟩
      rw [show (0 : Nat) :: (ys ++ [x]) = ((0 : Nat) :: ys) ++ [x] by simp,
        List.dropLast_concat]
  · rcases List.eq_nil_or_concat stack with rfl | ⟨ys, x, rfl⟩
    · exact Or.inr trivial
    · rw [List.concat_eq_append] at hrefs ⊢
      refine Or.inr ?_
      rw [List.dropLast_concat]
      exact stack_refs_dropLast nodes ys x 0 hrefs

lemma nodes_ok_push (nodes : List HtmlNode) (stack : List Nat) (tag : Nat)
    (hn : NodesOk nodes) (hs : StackOk nodes stack) :
    NodesOk (nodes ++ [⟨stack_top stack, tag⟩]) := by
  intro i hi
  rw [List.length_append, List.length_cons, List.length_nil] at hi
  by_cases hilen : i < nodes.length
  · rw [nodes_getD_append _ _ _ hilen]
    rcases hn i hilen with h0 | ⟨j, hj, htag⟩
    · exact Or.inl h0
    · exact Or.inr ⟨j, hj, by rw [nodes_getD_append _ _ _ (by omega)]; exact htag⟩
  · have hieq : i = nodes.length := by omega
    subst hieq
    rw [nodes_getD_concat_length]
    rcases stack_ok_top nodes stack hs with h0 | ⟨j, hj, htag⟩
    · exact Or.inl h0
    · exact Or.inr ⟨j, by omega, by rw [nodes_getD_append _ _ _ hj]; exact htag⟩

lemma nodes_ok_dropLast (nodes : List HtmlNode) (h : NodesOk nodes) :
    NodesOk nodes.dropLast := by
  intro i hi
  rw [List.length_dropLast] at hi
  rcases h i (by omega) with h0 | ⟨j, hj, htag⟩
  · exact Or.inl (by rw [nodes_getD_dropLast _ _ (by omega)]; exact h0)
  · refine Or.inr ⟨j, hj, ?_⟩
    rw [nodes_getD_dropLast _ _ (by omega), nodes_getD_dropLast _ _ (by omega)]
    exact htag

/-- The joint invariant carried by the parser state. -/
def ParseInv (st : ParseSt) : Prop :=
  NodesOk st.nodes ∧ StackOk st.nodes st.stack

lemma push_node_inv (st : ParseSt) (tag : Nat) (h : ParseInv st) :
    ParseInv (push_node st tag) := by
  unfold push_node
  split
  next =>
    exact ⟨nodes_ok_push st.nodes st.stack tag h.1 h.2,
      stack_ok_push st.nodes st.stack tag h.2⟩
  next => exact h

lemma pop_find_ge (toks : List Token) (stack : List Nat) (tag : Nat) :
    ∀ i j, pop_find toks stack tag i = some j → 1 ≤ j
  | 0, j, h => by simp [pop_find] at h
  | i + 1, j, h => by
    rw [pop_find] at h
    split at h
    next =>
      cases h
      omega
    next => exact pop_find_ge toks stack tag i j h

lemma pop_node_inv (toks : List Token) (st : ParseSt) (tag : Nat)
    (h : ParseInv st) : ParseInv (pop_node toks st tag) := by
  unfold pop_node
  split
  next i hfind =>
    exact ⟨h.1, stack_ok_take st.nodes st.stack i
      (pop_find_ge toks st.stack tag (st.stack.length - 1) i hfind) h.2⟩
  next => exact h

lemma parse_inv_rollback (st : ParseSt) (h : ParseInv st) :
    ParseInv { st with nodes := st.nodes.dropLast, stack := st.stack.dropLast } :=
  ⟨nodes_ok_dropLast _ h.1, stack_ok_dropLast _ _ h.2⟩

lemma read_node_open_tag_inv (toks : List Token) (st : ParseSt)
    (h : ParseInv st) : ParseInv (read_node_open_tag toks st).1 := by
  unfold read_node_open_tag
  simp only []
  split
  next =>
    split
    next =>
      split
      next => exact push_node_inv st _ h
      next => exact parse_inv_rollback _ (push_node_inv st _ h)
    next => exact h
  next => exact h

lemma read_node_close_tag_inv (toks : List Token) (st : ParseSt)
    (h : ParseInv st) : ParseInv (read_node_close_tag toks st).1 := by
  unfold read_node_close_tag
  simp only []
  split
  next =>
    split
    next =>
      split
      next =>
        split
        next => exact pop_node_inv toks st _ h
        next => exact h
      next => exact h
    next => exact h
  next => exact h

lemma read_node_variable_inv (toks : List Token) (st : ParseSt)
    (h : ParseInv st) : ParseInv (read_node_variable toks st).1 := by
  unfold read_node_variable
  simp only []
  split
  next =>
    split
    next =>
      split
      next =>
        split
        next =>
          split
          next => exact pop_node_inv toks _ _ (push_node_inv st _ h)
          next => exact h
        next => exact h
      next => exact h
    next => exact h
  next => exact h

lemma read_node_text_inv (toks : List Token) (st : ParseSt)
    (h : ParseInv st) : ParseInv (read_node_text toks st).1 := by
  unfold read_node_text
  simp only []
  split
  next => exact h
  next => exact h

lemma read_node_whitespace_inv (toks : List Token) (st : ParseSt)
    (h : ParseInv st) : ParseInv (read_node_whitespace toks st).1 := by
  unfold read_node_whitespace
  simp only []
  split
  next => exact h
  next => exact h

lemma read_node_inv (toks : List Token) (st : ParseSt)
    (h : ParseInv st) : ParseInv (read_node toks st).1 := by
  unfold read_node
  simp only []
  split
  next => exact read_node_open_tag_inv toks st h
  next =>
    split
    next => exact read_node_close_tag_inv toks _ (read_node_open_tag_inv toks st h)
    next =>
      split
      next =>
        exact read_node_variable_inv toks _
          (read_node_close_tag_inv toks _ (read_node_open_tag_inv toks st h))
      next =>
        split
        next =>
          exact read_node_text_inv toks _
            (read_node_variable_inv toks _
              (read_node_close_tag_inv toks _ (read_node_open_tag_inv toks st h)))
        next =>
          exact read_node_whitespace_inv toks _
            (read_node_text_inv toks _
              (read_node_variable_inv toks _
                (read_node_close_tag_inv toks _ (read_node_open_tag_inv toks st h))))

lemma parse_loop_inv (toks : List Token) (fuel : Nat) :
    ∀ st, ParseInv st → ParseInv (parse_loop toks fuel st) := by
  induction fuel with
  | zero =>
    intro st h
    exact h
  | succ fuel ih =>
    intro st h
    rw [parse_loop]
    simp only []
    split
    next =>
      split
      next =>
        split
        next => exact read_node_inv toks st h
        next => exact ih _ (read_node_inv toks st h)
      next =>
        exact read_node_inv toks st h
    next => exact h

lemma parse_init_inv : ParseInv parse_init := by
  constructor
  · intro i hi
    simp [parse_init] at hi
  · exact Or.inl ⟨[], rfl, trivial⟩

/-! ## Claim C9 -/

/-- Claim C9: at every point during and after parsing (any fuel cut of the
node loop, over any token sequence) the parent field of every recorded
tree node is either the sentinel 0 or the tag-name token index of some
node recorded earlier in the node table. -/
theorem c9_parent_is_sentinel_or_earlier_tag (toks : List Token) (fuel i : Nat)
    (hi : i < (parse_loop toks fuel parse_init).nodes.length) :
    ((parse_loop toks fuel parse_init).nodes.getD i ⟨0, 0⟩).parent = 0 ∨
    ∃ j, j < i ∧
      ((parse_loop toks fuel parse_init).nodes.getD j ⟨0, 0⟩).tag =
        ((parse_loop toks fuel parse_init).nodes.getD i ⟨0, 0⟩).parent :=
  (parse_loop_inv toks fuel parse_init parse_init_inv).1 i hi

/-- Claim C9, witness: the invariant applied to the second node of the
parsed <div><span></span></div>, whose parent is the tag token of the
first node. -/
theorem c9_witness :
    0 < (parse_loop (lex_run doc_div_span).toks
          ((lex_run doc_div_span).toks.length + 1) parse_init).nodes.length ∧
    (((parse_loop (lex_run doc_div_span).toks
          ((lex_run doc_div_span).toks.length + 1) parse_init).nodes.getD 0
            ⟨0, 0⟩).parent = 0 ∨
      ∃ j, j < 0 ∧
        ((parse_loop (lex_run doc_div_span).toks
            ((lex_run doc_div_span).toks.length + 1) parse_init).nodes.getD j
              ⟨0, 0⟩).tag =
          ((parse_loop (lex_run doc_div_span).toks
              ((lex_run doc_div_span).toks.length + 1) parse_init).nodes.getD 0
                ⟨0, 0⟩).parent) :=
  ⟨by decide,
   c9_parent_is_sentinel_or_earlier_tag (lex_run doc_div_span).toks
     ((lex_run doc_div_span).toks.length + 1) 0 (by decide)⟩

end StaticWeb
